import Mathlib

/-!
Verification of the order-management model of `src/components/sales-order-app.tsx`
(the `SalesOrderApp` React component).

The component's pure logic is shallowly embedded here:

* `Order`, `NewOrder`, `Status` mirror the TypeScript `Order` and `NewOrder`
  types (`status` is the two-valued string union, `amount` of a draft is the
  raw text of the number input).
* `handleAddOrder`, `handleDeleteOrder`, `toggleStatus` embed the component's
  handlers; React state updates become explicit list-in/list-out functions,
  and the `window.confirm` collaborator becomes an explicit boolean argument.
* `filterOrders` / `sortOrders` embed the `filteredOrders` derivation.
* JavaScript runtime primitives used by the component
  (`String.prototype.toLowerCase`, `String.prototype.includes`,
  `Number(...)`, `Number.prototype.toString`, `JSON.stringify` / `JSON.parse`
  on order arrays, `new Date(...).getTime()`) are not repository code; they
  are modelled by executable Lean functions, documented at each definition.
  `new Date(s).getTime()` is kept abstract as a parameter `dateTime`.
-/

/-- Order status, the string union `'pending' | 'completed'` of the source. -/
inductive Status where
  | pending
  | completed
deriving DecidableEq, Repr

/-- Flip of a status, from `toggleStatus`:
`order.status === 'pending' ? 'completed' : 'pending'`. -/
def Status.flip : Status → Status
  | .pending => .completed
  | .completed => .pending

/-- Text of a status value, as it appears in the serialized JSON. -/
def Status.text : Status → String
  | .pending => "pending"
  | .completed => "completed"

/-- The `Order` record of the source. `amount` is a JS number; every amount
the component ever stores is produced by `Number(...)` on the form's decimal
text, so it is modelled as an integer. `notes` is always written as a string
by the component (`notes: newOrder.notes`), so it is modelled as `String`. -/
structure Order where
  id : Nat
  customer : String
  amount : Int
  status : Status
  date : String
  notes : String
deriving DecidableEq, Repr

/-- The `NewOrder` draft type of the source: the form state, with `amount`
still textual. -/
structure NewOrder where
  customer : String
  amount : String
  status : Status
  date : String
  notes : String
deriving DecidableEq, Repr

/-- Kind of a transient alert, the `'success' | 'error'` union of the source. -/
inductive AlertKind where
  | success
  | error
deriving DecidableEq, Repr

/-- The alert record `\x7b type, message \x7d` the handlers pass to `setAlert`. -/
structure Alert where
  type : AlertKind
  message : String
deriving DecidableEq, Repr

/-- The fixed two-record default dataset `INITIAL_ORDERS` of the source.
Both sample records carry `new Date().toISOString().split('T')[0]` as their
date; the current day is an input of the model, passed as `today`. -/
def INITIAL_ORDERS (today : String) : List Order :=
  [ { id := 1, customer := "Acme Corp", amount := 1500, status := .pending,
      date := today, notes := "Quarterly subscription" },
    { id := 2, customer := "TechStart", amount := 2300, status := .completed,
      date := today, notes := "Hardware purchase" } ]

/-- Modelled from the spec: decimal digit accumulation underlying the
JavaScript `Number(...)` coercion on the digit strings the form produces. -/
def digitsVal : List Char → Nat → Nat
  | [], acc => acc
  | c :: t, acc => digitsVal t (acc * 10 + (c.toNat - 48))

/-- Modelled from the spec: the runtime's string-to-number coercion
`Number(newOrder.amount)`, on the (optionally negated) decimal integer
strings produced by the amount input. -/
def jsStringToNumber (s : String) : Int :=
  match s.data with
  | '-' :: t => -(Int.ofNat (digitsVal t 0))
  | l => Int.ofNat (digitsVal l 0)

/-- Largest existing id, or 0 on the empty list: the source's
`Math.max(...orders.map(o => o.id), 0)`. -/
def maxOrderId (orders : List Order) : Nat :=
  (orders.map Order.id).foldr max 0

/-- The `handleAddOrder` handler. Its three pieces of React state become
explicit arguments: the current list `orders`, the `editingOrder` flag, and
the draft `newOrder`. It returns the new list together with the alert passed
to `setAlert` (success on mutation, error on failed validation); the modal
and timer bookkeeping is presentation state outside the model. -/
def handleAddOrder (orders : List Order) (editingOrder : Option Order)
    (newOrder : NewOrder) : List Order × Alert :=
  if newOrder.customer ≠ "" ∧ newOrder.amount ≠ "" then
    let orderToSave : Order :=
      { id := match editingOrder with
              | some e => e.id
              | none => maxOrderId orders + 1
        customer := newOrder.customer
        amount := jsStringToNumber newOrder.amount
        status := newOrder.status
        date := newOrder.date
        notes := newOrder.notes }
    match editingOrder with
    | some e =>
        (orders.map fun o => if o.id = e.id then orderToSave else o,
         { type := .success, message := "Order updated successfully!" })
    | none =>
        (orders ++ [orderToSave],
         { type := .success, message := "New order added successfully!" })
  else
    (orders, { type := .error, message := "Please fill in all required fields!" })

/-- The `handleDeleteOrder` handler. The `window.confirm` collaborator's
answer is the explicit `confirmed` argument. -/
def handleDeleteOrder (orders : List Order) (id : Nat) (confirmed : Bool) :
    List Order :=
  if confirmed then orders.filter (fun o => o.id ≠ id) else orders

/-- The `toggleStatus` handler. -/
def toggleStatus (orders : List Order) (id : Nat) : List Order :=
  orders.map fun o =>
    if o.id = id then { o with status := o.status.flip } else o

/-- One user-driven store mutation, for stating sequence invariants:
an add (`handleAddOrder` with `editingOrder = null`), an update
(`handleAddOrder` with `editingOrder` set), a delete (with the confirmation
collaborator's answer), or a status toggle. -/
inductive StoreOp where
  | add (draft : NewOrder)
  | update (editing : Order) (draft : NewOrder)
  | remove (id : Nat) (confirmed : Bool)
  | toggle (id : Nat)

/-- Effect of one mutation on the order list. -/
def applyOp (orders : List Order) : StoreOp → List Order
  | .add d => (handleAddOrder orders none d).1
  | .update e d => (handleAddOrder orders (some e) d).1
  | .remove i c => handleDeleteOrder orders i c
  | .toggle i => toggleStatus orders i

/-- Effect of a sequence of mutations, first to last. -/
def runOps (orders : List Order) (ops : List StoreOp) : List Order :=
  ops.foldl applyOp orders

/-- The two sample orders with a fixed date, used as concrete test data. -/
def sampleOrders : List Order := INITIAL_ORDERS "2024-01-15"

/-- The draft of the spec's add scenario: customer "Globex", amount text
"500", default status and empty notes. -/
def globexDraft : NewOrder :=
  { customer := "Globex", amount := "500", status := .pending,
    date := "2024-01-15", notes := "" }

example : jsStringToNumber "500" = 500 := by decide
example : jsStringToNumber "-42" = -42 := by decide
example : maxOrderId sampleOrders = 2 := by decide
example :
    (handleAddOrder sampleOrders none globexDraft).1.length = 3 := by decide
example : handleDeleteOrder sampleOrders 1 true = [sampleOrders[1]] := by decide
example : toggleStatus (toggleStatus sampleOrders 1) 1 = sampleOrders := by decide

/-- Status filter values, the `'all' | 'pending' | 'completed'` union. -/
inductive StatusFilter where
  | all
  | pending
  | completed
deriving DecidableEq, Repr

/-- Injection of a status into the filter domain, modelling the source's
string comparison `order.status === statusFilter`. -/
def statusToFilter : Status → StatusFilter
  | .pending => .pending
  | .completed => .completed

/-- Modelled from the spec: the runtime's `haystack.includes(needle)`
substring test, on lists of characters. -/
def containsSub : List Char → List Char → Bool
  | [], pat => pat.isEmpty
  | c :: t, pat => pat.isPrefixOf (c :: t) || containsSub t pat

/-- Modelled from the spec: a digit of the decimal text of a number, the
runtime's digit-to-character step of `Number.prototype.toString`. -/
def natToCharsAux : Nat → Nat → List Char
  | 0, _ => []
  | fuel + 1, n =>
      if n = 0 then [] else natToCharsAux fuel (n / 10) ++ [Nat.digitChar (n % 10)]

/-- Modelled from the spec: the decimal text of a natural number
(most-significant digit first), total via a fuel bound that always suffices. -/
def natToChars (n : Nat) : List Char :=
  if n = 0 then ['0'] else natToCharsAux (n + 1) n

/-- Modelled from the spec: the runtime's `Number.prototype.toString` (and the
JSON number text of `JSON.stringify`) on the integer amounts of this model. -/
def intToChars (i : Int) : List Char :=
  if i < 0 then '-' :: natToChars i.natAbs else natToChars i.natAbs

/-- Modelled from the spec: the runtime's `String.prototype.toLowerCase` on a
character list (ASCII case mapping, which covers the model's text). -/
def lowerChars (l : List Char) : List Char := l.map Char.toLower

/-- Search part of the `filteredOrders` predicate:
`order.customer.toLowerCase().includes(searchTerm.toLowerCase()) ||
order.amount.toString().includes(searchTerm)`. -/
def matchesSearch (searchTerm : String) (o : Order) : Bool :=
  containsSub (lowerChars o.customer.data) (lowerChars searchTerm.data)
    || containsSub (intToChars o.amount) searchTerm.data

/-- The whole filter predicate of `filteredOrders`:
search match AND (`statusFilter === 'all' || order.status === statusFilter`). -/
def orderMatches (searchTerm : String) (statusFilter : StatusFilter)
    (o : Order) : Bool :=
  matchesSearch searchTerm o
    && (statusFilter == .all || statusToFilter o.status == statusFilter)

/-- The filtering step of the `filteredOrders` derivation. -/
def filterOrders (orders : List Order) (searchTerm : String)
    (statusFilter : StatusFilter) : List Order :=
  orders.filter (orderMatches searchTerm statusFilter)

/-- Sort key, the `'date' | 'amount'` union of the source's `sortBy`. -/
inductive SortKey where
  | date
  | amount
deriving DecidableEq, Repr

/-- Sort direction, the `'asc' | 'desc'` union of `sortDirection`. -/
inductive SortDir where
  | asc
  | desc
deriving DecidableEq, Repr

/-- The comparator of the sort step. The runtime's `new Date(s).getTime()` is
an external primitive, passed in as `dateTime`. Mirrors
`modifier * (date difference)` for `sortBy === 'date'`, else
`modifier * (a.amount - b.amount)`. -/
def compareOrders (dateTime : String → Int) (sb : SortKey) (dir : SortDir)
    (a b : Order) : Int :=
  let modifier : Int := if dir = .asc then 1 else -1
  match sb with
  | .date => modifier * (dateTime a.date - dateTime b.date)
  | .amount => modifier * (a.amount - b.amount)

/-- The sorting step of the `filteredOrders` derivation:
`[...filteredOrders].sort(comparator)`. JavaScript's `Array.prototype.sort`
is a stable sort ordering the array consistently with the comparator, which a
stable merge sort by `comparator ≤ 0` realizes. -/
def sortOrders (dateTime : String → Int) (sb : SortKey) (dir : SortDir)
    (l : List Order) : List Order :=
  l.mergeSort fun a b => compareOrders dateTime sb dir a b ≤ 0

/-- The full `filteredOrders` derivation: filter, then stable sort. -/
def filteredOrders (dateTime : String → Int) (orders : List Order)
    (searchTerm : String) (statusFilter : StatusFilter)
    (sb : SortKey) (dir : SortDir) : List Order :=
  sortOrders dateTime sb dir (filterOrders orders searchTerm statusFilter)

/-- Value of an order under a sort key, for stating the sort's contract. -/
def sortKeyVal (dateTime : String → Int) (sb : SortKey) (o : Order) : Int :=
  match sb with
  | .date => dateTime o.date
  | .amount => o.amount

example : matchesSearch "acme" sampleOrders[0] = true := by decide
example : matchesSearch "700" sampleOrders[0] = false := by decide
example : matchesSearch "230" sampleOrders[1] = true := by decide
example : filterOrders sampleOrders "" .completed = [sampleOrders[1]] := by decide
example : intToChars (-42) = ['-', '4', '2'] := by decide
example : intToChars 1500 = ['1', '5', '0', '0'] := by decide

/-- C2: for every order list and every draft with non-empty customer and
non-empty amount text, the add operation (`handleAddOrder` with no order
being edited) appends exactly one new record whose id is the maximum
existing id plus 1 — which is 1 when the list is empty — whose amount is the
numeric value derived from the draft's textual amount, and whose remaining
fields are the draft's, signalling success. -/
theorem add_valid_appends (orders : List Order) (d : NewOrder)
    (hc : d.customer ≠ "") (ha : d.amount ≠ "") :
    handleAddOrder orders none d =
      (orders ++ [{ id := maxOrderId orders + 1, customer := d.customer,
                    amount := jsStringToNumber d.amount, status := d.status,
                    date := d.date, notes := d.notes }],
       { type := .success, message := "New order added successfully!" }) ∧
    (orders = [] → maxOrderId orders + 1 = 1) := by
  constructor
  · simp [handleAddOrder, hc, ha]
  · rintro rfl
    rfl

theorem add_valid_appends_witness :
    globexDraft.customer ≠ "" ∧ globexDraft.amount ≠ "" ∧
    handleAddOrder sampleOrders none globexDraft =
      (sampleOrders ++
        [{ id := 3, customer := "Globex", amount := 500, status := .pending,
           date := "2024-01-15", notes := "" }],
       { type := .success, message := "New order added successfully!" }) ∧
    (handleAddOrder sampleOrders none globexDraft).1.length = 3 :=
  ⟨by decide, by decide,
   ((add_valid_appends sampleOrders globexDraft (by decide) (by decide)).1).trans
     (by decide),
   by decide⟩

/-- C3: for every order list and every draft whose customer text or amount
text is empty, the add operation leaves the order list unchanged and signals
a validation failure to the presentation layer. -/
theorem add_invalid_unchanged (orders : List Order) (d : NewOrder)
    (h : d.customer = "" ∨ d.amount = "") :
    handleAddOrder orders none d =
      (orders,
       { type := .error, message := "Please fill in all required fields!" }) := by
  have hcond : ¬(d.customer ≠ "" ∧ d.amount ≠ "") := by
    rcases h with h | h <;> simp [h]
  simp [handleAddOrder, hcond]

theorem add_invalid_unchanged_witness :
    (({ customer := "", amount := "500", status := .pending,
        date := "2024-01-15", notes := "" } : NewOrder).customer = "" ∨
      ({ customer := "", amount := "500", status := .pending,
         date := "2024-01-15", notes := "" } : NewOrder).amount = "") ∧
    handleAddOrder sampleOrders none
        { customer := "", amount := "500", status := .pending,
          date := "2024-01-15", notes := "" } =
      (sampleOrders,
       { type := .error, message := "Please fill in all required fields!" }) :=
  ⟨Or.inl rfl,
   add_invalid_unchanged sampleOrders
     { customer := "", amount := "500", status := .pending,
       date := "2024-01-15", notes := "" } (Or.inl rfl)⟩

/-- C10: the update (edit) path runs through the same validation as add:
for every order list, edited order, and draft whose customer text or amount
text is empty, `handleAddOrder` with `editingOrder` set leaves the order
list unchanged and signals the same validation failure instead of replacing
the edited record's fields. -/
theorem update_invalid_unchanged (orders : List Order) (e : Order)
    (d : NewOrder) (h : d.customer = "" ∨ d.amount = "") :
    handleAddOrder orders (some e) d =
      (orders,
       { type := .error, message := "Please fill in all required fields!" }) := by
  have hcond : ¬(d.customer ≠ "" ∧ d.amount ≠ "") := by
    rcases h with h | h <;> simp [h]
  simp [handleAddOrder, hcond]

theorem update_invalid_unchanged_witness :
    (({ customer := "Acme Corp", amount := "", status := .pending,
        date := "2024-01-15", notes := "" } : NewOrder).customer = "" ∨
      ({ customer := "Acme Corp", amount := "", status := .pending,
         date := "2024-01-15", notes := "" } : NewOrder).amount = "") ∧
    handleAddOrder sampleOrders
        (some { id := 1, customer := "Acme Corp", amount := 1500,
                status := .pending, date := "2024-01-15",
                notes := "Quarterly subscription" })
        { customer := "Acme Corp", amount := "", status := .pending,
          date := "2024-01-15", notes := "" } =
      (sampleOrders,
       { type := .error, message := "Please fill in all required fields!" }) :=
  ⟨Or.inr rfl,
   update_invalid_unchanged sampleOrders
     { id := 1, customer := "Acme Corp", amount := 1500, status := .pending,
       date := "2024-01-15", notes := "Quarterly subscription" }
     { customer := "Acme Corp", amount := "", status := .pending,
       date := "2024-01-15", notes := "" } (Or.inr rfl)⟩

/-- C7: when the confirmation collaborator answers no, `handleDeleteOrder`
leaves the list unchanged; when it answers yes, the result keeps exactly the
records whose id differs from the given one, in their original relative
order — so the matching record is deleted, every other record is untouched,
and the operation is a no-op when no record matches. -/
theorem delete_spec (orders : List Order) (id : Nat) :
    handleDeleteOrder orders id false = orders ∧
    handleDeleteOrder orders id true = orders.filter (fun o => o.id ≠ id) ∧
    ((∀ o ∈ orders, o.id ≠ id) → handleDeleteOrder orders id true = orders) := by
  refine ⟨rfl, rfl, fun h => ?_⟩
  show orders.filter (fun o => o.id ≠ id) = orders
  exact List.filter_eq_self.mpr fun o ho => by simpa using h o ho

theorem delete_spec_witness :
    handleDeleteOrder sampleOrders 1 true =
      [{ id := 2, customer := "TechStart", amount := 2300, status := .completed,
         date := "2024-01-15", notes := "Hardware purchase" }] ∧
    handleDeleteOrder sampleOrders 1 false = sampleOrders ∧
    (∀ o ∈ sampleOrders, o.id ≠ 99) ∧
    handleDeleteOrder sampleOrders 99 true = sampleOrders :=
  ⟨((delete_spec sampleOrders 1).2.1).trans (by decide),
   (delete_spec sampleOrders 1).1, by decide,
   (delete_spec sampleOrders 99).2.2 (by decide)⟩

/-- C9: `toggleStatus` applied twice with the same id restores the original
list (involution); one application maps each position to the same record
with the status flipped when the id matches and unchanged otherwise, and it
is a no-op when no record carries the id. -/
theorem toggle_spec (orders : List Order) (id : Nat) :
    toggleStatus (toggleStatus orders id) id = orders ∧
    (∀ i : Nat, (toggleStatus orders id)[i]? =
      orders[i]?.map fun o =>
        if o.id = id then { o with status := o.status.flip } else o) ∧
    ((∀ o ∈ orders, o.id ≠ id) → toggleStatus orders id = orders) := by
  have hff : ∀ o : Order,
      (fun o : Order =>
        if o.id = id then { o with status := o.status.flip } else o)
        ((fun o : Order =>
          if o.id = id then { o with status := o.status.flip } else o) o) = o := by
    intro o
    by_cases h : o.id = id
    · have h2 : ({ o with status := o.status.flip } : Order).id = id := h
      simp only [if_pos h, if_pos h2]
      cases o with
      | mk i c a st dt nt => cases st <;> rfl
    · simp [h]
  refine ⟨?_, fun i => ?_, fun h => ?_⟩
  · show (orders.map _).map _ = orders
    rw [List.map_map]
    exact (List.map_congr_left fun o _ => hff o).trans (List.map_id orders)
  · exact List.getElem?_map ..
  · show orders.map _ = orders
    refine (List.map_congr_left fun o ho => ?_).trans (List.map_id orders)
    simp [h o ho]

theorem toggle_spec_witness :
    toggleStatus (toggleStatus sampleOrders 2) 2 = sampleOrders ∧
    (∀ o ∈ sampleOrders, o.id ≠ 5) ∧
    toggleStatus sampleOrders 5 = sampleOrders :=
  ⟨(toggle_spec sampleOrders 2).1, by decide,
   (toggle_spec sampleOrders 5).2.2 (by decide)⟩

theorem maxOrderId_cons (a : Order) (t : List Order) :
    maxOrderId (a :: t) = max a.id (maxOrderId t) := rfl

theorem id_le_maxOrderId (orders : List Order) (o : Order) (ho : o ∈ orders) :
    o.id ≤ maxOrderId orders := by
  induction orders with
  | nil => cases ho
  | cons a t ih =>
    rw [maxOrderId_cons]
    rcases List.mem_cons.mp ho with rfl | hm
    · exact le_max_left ..
    · exact le_trans (ih hm) (le_max_right ..)

theorem handleAddOrder_none_valid (orders : List Order) (d : NewOrder)
    (hv : d.customer ≠ "" ∧ d.amount ≠ "") :
    (handleAddOrder orders none d).1 =
      orders ++ [{ id := maxOrderId orders + 1, customer := d.customer,
                   amount := jsStringToNumber d.amount, status := d.status,
                   date := d.date, notes := d.notes }] := by
  simp [handleAddOrder, hv]

theorem handleAddOrder_fst_invalid (orders : List Order)
    (e : Option Order) (d : NewOrder) (hv : ¬(d.customer ≠ "" ∧ d.amount ≠ "")) :
    (handleAddOrder orders e d).1 = orders := by
  simp [handleAddOrder, hv]

theorem handleAddOrder_some_ids (orders : List Order) (e : Order)
    (d : NewOrder) :
    ((handleAddOrder orders (some e) d).1).map Order.id =
      orders.map Order.id := by
  by_cases hv : d.customer ≠ "" ∧ d.amount ≠ ""
  · show ((if d.customer ≠ "" ∧ d.amount ≠ "" then _ else _) : List Order × Alert).1.map Order.id = _
    rw [if_pos hv]
    rw [List.map_map]
    refine List.map_congr_left fun o _ => ?_
    by_cases h : o.id = e.id <;> simp [h]
  · rw [handleAddOrder_fst_invalid orders (some e) d hv]

theorem toggleStatus_ids (orders : List Order) (i : Nat) :
    (toggleStatus orders i).map Order.id = orders.map Order.id := by
  unfold toggleStatus
  rw [List.map_map]
  refine List.map_congr_left fun o _ => ?_
  by_cases h : o.id = i <;> simp [h]

theorem handleDeleteOrder_ids_sublist (orders : List Order) (i : Nat)
    (c : Bool) :
    ((handleDeleteOrder orders i c).map Order.id).Sublist
      (orders.map Order.id) := by
  cases c with
  | false => exact (List.Sublist.refl _)
  | true => exact List.Sublist.map Order.id (List.filter_sublist orders)

theorem ids_nodup_applyOp (orders : List Order) (op : StoreOp)
    (h : (orders.map Order.id).Nodup) :
    ((applyOp orders op).map Order.id).Nodup := by
  cases op with
  | add d =>
    by_cases hv : d.customer ≠ "" ∧ d.amount ≠ ""
    · show ((handleAddOrder orders none d).1.map Order.id).Nodup
      rw [handleAddOrder_none_valid orders d hv, List.map_append]
      rw [List.nodup_append]
      refine ⟨h, List.nodup_singleton _, fun a ha hb => ?_⟩
      simp only [List.map_cons, List.map_nil, List.mem_singleton] at hb
      rcases List.mem_map.mp ha with ⟨o, ho, rfl⟩
      have := id_le_maxOrderId orders o ho
      omega
    · show ((handleAddOrder orders none d).1.map Order.id).Nodup
      rw [handleAddOrder_fst_invalid orders none d hv]
      exact h
  | update e d =>
    show ((handleAddOrder orders (some e) d).1.map Order.id).Nodup
    rw [handleAddOrder_some_ids]
    exact h
  | remove i c =>
    exact (handleDeleteOrder_ids_sublist orders i c).nodup h
  | toggle i =>
    show ((toggleStatus orders i).map Order.id).Nodup
    rw [toggleStatus_ids]
    exact h

/-- C1: starting from any list with pairwise-distinct ids (such as the
two-record default dataset), every sequence of add, update, remove, and
toggle operations keeps the ids pairwise distinct — hence they are distinct
at every intermediate state, each state being reached by a prefix of some
sequence. Moreover a valid add appends one record whose id is strictly
greater than every existing id, an update leaves the whole id sequence
unchanged (in particular the edited record's id), toggling changes no id,
and removal leaves the surviving ids a subsequence of the original ones. -/
theorem ids_nodup_invariant (ops : List StoreOp) (orders : List Order)
    (h : (orders.map Order.id).Nodup) :
    ((runOps orders ops).map Order.id).Nodup ∧
    (∀ d : NewOrder, d.customer ≠ "" → d.amount ≠ "" →
      ∃ rec : Order, (handleAddOrder orders none d).1 = orders ++ [rec] ∧
        ∀ o ∈ orders, o.id < rec.id) ∧
    (∀ (e : Order) (d : NewOrder),
      ((handleAddOrder orders (some e) d).1).map Order.id =
        orders.map Order.id) ∧
    (∀ i : Nat, (toggleStatus orders i).map Order.id = orders.map Order.id) ∧
    (∀ (i : Nat) (c : Bool),
      ((handleDeleteOrder orders i c).map Order.id).Sublist
        (orders.map Order.id)) := by
  refine ⟨?_, ?_, handleAddOrder_some_ids orders, toggleStatus_ids orders,
    handleDeleteOrder_ids_sublist orders⟩
  · rw [runOps]
    induction ops generalizing orders with
    | nil => exact h
    | cons op t ih => exact ih (applyOp orders op) (ids_nodup_applyOp orders op h)
  · intro d hc ha
    refine ⟨_, handleAddOrder_none_valid orders d ⟨hc, ha⟩, fun o ho => ?_⟩
    have := id_le_maxOrderId orders o ho
    show o.id < maxOrderId orders + 1
    omega

theorem ids_nodup_invariant_witness :
    ((sampleOrders.map Order.id).Nodup) ∧
    ((runOps sampleOrders
        [.add globexDraft, .toggle 1, .remove 2 true,
         .add { customer := "Initech", amount := "75", status := .completed,
                date := "2024-02-01", notes := "rush" },
         .update { id := 3, customer := "Globex", amount := 500,
                   status := .pending, date := "2024-01-15", notes := "" }
                 { customer := "Globex LLC", amount := "650",
                   status := .completed, date := "2024-01-20", notes := "" },
         .remove 7 false]).map Order.id).Nodup :=
  ⟨by decide,
   (ids_nodup_invariant
      [.add globexDraft, .toggle 1, .remove 2 true,
       .add { customer := "Initech", amount := "75", status := .completed,
              date := "2024-02-01", notes := "rush" },
       .update { id := 3, customer := "Globex", amount := 500,
                 status := .pending, date := "2024-01-15", notes := "" }
               { customer := "Globex LLC", amount := "650",
                 status := .completed, date := "2024-01-20", notes := "" },
       .remove 7 false] sampleOrders (by decide)).1⟩

/-- C4: the filtering step includes an order exactly when (its customer name
contains the search text case-insensitively, or the decimal text of its
amount contains the search text as a substring) and (the status filter is
"all" or equals the order's status); consequently every element of the
"completed"-filtered view has status completed, and the "all" view is
exactly the search-filtered set. -/
theorem filter_spec (orders : List Order) (st : String) (sf : StatusFilter) :
    (∀ o : Order, o ∈ filterOrders orders st sf ↔ o ∈ orders ∧
      ((containsSub (lowerChars o.customer.data) (lowerChars st.data) = true ∨
        containsSub (intToChars o.amount) st.data = true) ∧
       (sf = .all ∨ statusToFilter o.status = sf))) ∧
    (∀ o ∈ filterOrders orders st .completed, o.status = .completed) ∧
    filterOrders orders st .all = orders.filter (matchesSearch st) := by
  have hmem : ∀ o : Order, o ∈ filterOrders orders st sf ↔ o ∈ orders ∧
      ((containsSub (lowerChars o.customer.data) (lowerChars st.data) = true ∨
        containsSub (intToChars o.amount) st.data = true) ∧
       (sf = .all ∨ statusToFilter o.status = sf)) := by
    intro o
    simp [filterOrders, List.mem_filter, orderMatches, matchesSearch,
      Bool.or_eq_true, Bool.and_eq_true, beq_iff_eq]
  refine ⟨hmem, fun o ho => ?_, ?_⟩
  · have h := (List.mem_filter.mp ho).2
    simp only [orderMatches, Bool.and_eq_true, Bool.or_eq_true,
      beq_iff_eq] at h
    rcases h.2 with h2 | h2
    · cases h2
    · cases hst : o.status
      · rw [hst] at h2
        cases h2
      · rfl
  · refine List.filter_congr fun o _ => ?_
    simp [orderMatches]

theorem filter_spec_witness :
    ({ id := 1, customer := "Acme Corp", amount := 1500, status := .pending,
       date := "2024-01-15", notes := "Quarterly subscription" } : Order) ∈
      filterOrders sampleOrders "acme" .all ∧
    (∀ o ∈ filterOrders sampleOrders "" .completed, o.status = .completed) ∧
    filterOrders sampleOrders "700" .all =
      sampleOrders.filter (matchesSearch "700") ∧
    filterOrders sampleOrders "700" .all = [] :=
  ⟨((filter_spec sampleOrders "acme" .all).1 _).mpr
     ⟨by decide, Or.inl (by decide), Or.inl rfl⟩,
   (filter_spec sampleOrders "" .completed).2.1,
   (filter_spec sampleOrders "700" .all).2.2,
   by decide⟩

/-- Direction of the sorted output on sort-key values: ascending keeps keys
non-decreasing, descending non-increasing. -/
def dirRel (dir : SortDir) (x y : Int) : Prop :=
  match dir with
  | .asc => x ≤ y
  | .desc => y ≤ x

theorem compareOrders_eq (dateTime : String → Int) (sb : SortKey)
    (dir : SortDir) (a b : Order) :
    compareOrders dateTime sb dir a b =
      (if dir = .asc then (1 : Int) else -1) *
        (sortKeyVal dateTime sb a - sortKeyVal dateTime sb b) := by
  cases sb <;> rfl

theorem sortLe_trans (dateTime : String → Int) (sb : SortKey) (dir : SortDir) :
    ∀ a b c : Order,
      decide (compareOrders dateTime sb dir a b ≤ 0) = true →
      decide (compareOrders dateTime sb dir b c ≤ 0) = true →
      decide (compareOrders dateTime sb dir a c ≤ 0) = true := by
  intro a b c
  simp only [decide_eq_true_eq, compareOrders_eq]
  cases dir <;> simp <;> omega

theorem sortLe_total (dateTime : String → Int) (sb : SortKey) (dir : SortDir) :
    ∀ a b : Order,
      (decide (compareOrders dateTime sb dir a b ≤ 0) ||
        decide (compareOrders dateTime sb dir b a ≤ 0)) = true := by
  intro a b
  simp only [Bool.or_eq_true, decide_eq_true_eq, compareOrders_eq]
  cases dir <;> simp <;> omega

/-- C5: the sorting step returns a permutation of its input, ordered by the
chosen key's value (`dateTime` of the date, or the amount) following the
direction, and it is stable: for each key value, the records carrying that
value appear in the output in their original relative order. -/
theorem sort_spec (dateTime : String → Int) (sb : SortKey) (dir : SortDir)
    (l : List Order) :
    (sortOrders dateTime sb dir l).Perm l ∧
    (sortOrders dateTime sb dir l).Pairwise (fun a b =>
      dirRel dir (sortKeyVal dateTime sb a) (sortKeyVal dateTime sb b)) ∧
    (∀ k : Int,
      (sortOrders dateTime sb dir l).filter
          (fun o => sortKeyVal dateTime sb o == k) =
        l.filter (fun o => sortKeyVal dateTime sb o == k)) := by
  refine ⟨List.mergeSort_perm l _, ?_, ?_⟩
  · have h := List.sorted_mergeSort (sortLe_trans dateTime sb dir)
      (sortLe_total dateTime sb dir) l
    refine List.Pairwise.imp ?_ h
    intro a b hab
    simp only [decide_eq_true_eq, compareOrders_eq] at hab
    cases dir with
    | asc =>
      rw [if_pos rfl] at hab
      show sortKeyVal dateTime sb a ≤ sortKeyVal dateTime sb b
      omega
    | desc =>
      rw [if_neg (by simp)] at hab
      show sortKeyVal dateTime sb b ≤ sortKeyVal dateTime sb a
      omega
  · intro k
    have hpw : (l.filter (fun o => sortKeyVal dateTime sb o == k)).Pairwise
        (fun a b => decide (compareOrders dateTime sb dir a b ≤ 0) = true) := by
      refine List.pairwise_of_forall_mem_list ?_
      intro a ha b hb
      have hka : sortKeyVal dateTime sb a = k := by
        simpa using (List.mem_filter.mp ha).2
      have hkb : sortKeyVal dateTime sb b = k := by
        simpa using (List.mem_filter.mp hb).2
      simp only [decide_eq_true_eq, compareOrders_eq, hka, hkb]
      cases dir <;> simp
    have hsub := List.sublist_mergeSort (sortLe_trans dateTime sb dir)
      (sortLe_total dateTime sb dir) hpw
      (List.filter_sublist l)
    have hself : (l.filter (fun o => sortKeyVal dateTime sb o == k)).filter
        (fun o => sortKeyVal dateTime sb o == k) =
        l.filter (fun o => sortKeyVal dateTime sb o == k) :=
      List.filter_eq_self.mpr fun a ha => (List.mem_filter.mp ha).2
    have hsub2 : (l.filter (fun o => sortKeyVal dateTime sb o == k)).Sublist
        ((sortOrders dateTime sb dir l).filter
          (fun o => sortKeyVal dateTime sb o == k)) := by
      have := hsub.filter (fun o => sortKeyVal dateTime sb o == k)
      rwa [hself] at this
    have hlen : ((sortOrders dateTime sb dir l).filter
        (fun o => sortKeyVal dateTime sb o == k)).length =
        (l.filter (fun o => sortKeyVal dateTime sb o == k)).length :=
      ((List.mergeSort_perm l _).filter _).length_eq
    exact (hsub2.eq_of_length hlen.symm).symm

/-- Modelled from the spec: the JSON string escaping of
`JSON.stringify` — a quote or backslash is preceded by a backslash (the
model's strings carry no control characters). -/
def escapeChar (c : Char) : List Char :=
  if c = '"' ∨ c = '\\' then ['\\', c] else [c]

/-- Modelled from the spec: escaping of a whole string body. -/
def escapeChars : List Char → List Char
  | [] => []
  | c :: t => escapeChar c ++ escapeChars t

/-- Fixed text between the opening brace of a JSON order object and its id
value, matching `JSON.stringify`'s key order (insertion order of the
record). -/
def litIdKey : List Char := ['\x7b', '"', 'i', 'd', '"', ':']

/-- Fixed text before a customer value, ending in its opening quote. -/
def litCustomerKey : List Char :=
  [','] ++ ['"', 'c', 'u', 's', 't', 'o', 'm', 'e', 'r', '"', ':', '"']

/-- Fixed text before an amount value. -/
def litAmountKey : List Char :=
  [','] ++ ['"', 'a', 'm', 'o', 'u', 'n', 't', '"', ':']

/-- Fixed text before a status value, ending in its opening quote. -/
def litStatusKey : List Char :=
  [','] ++ ['"', 's', 't', 'a', 't', 'u', 's', '"', ':', '"']

/-- Fixed text before a date value, ending in its opening quote. -/
def litDateKey : List Char :=
  [','] ++ ['"', 'd', 'a', 't', 'e', '"', ':', '"']

/-- Fixed text before a notes value, ending in its opening quote. -/
def litNotesKey : List Char :=
  [','] ++ ['"', 'n', 'o', 't', 'e', 's', '"', ':', '"']

/-- Modelled from the spec: the JSON object text `JSON.stringify` produces
for one order record. -/
def encodeOrder (o : Order) : List Char :=
  litIdKey ++ natToChars o.id
    ++ litCustomerKey ++ escapeChars o.customer.data ++ ['"']
    ++ litAmountKey ++ intToChars o.amount
    ++ litStatusKey ++ escapeChars o.status.text.data ++ ['"']
    ++ litDateKey ++ escapeChars o.date.data ++ ['"']
    ++ litNotesKey ++ escapeChars o.notes.data ++ ['"']
    ++ ['\x7d']

/-- Modelled from the spec: the comma-separated object texts of a JSON
array body. -/
def encodeOrders : List Order → List Char
  | [] => []
  | [o] => encodeOrder o
  | o :: t => encodeOrder o ++ ',' :: encodeOrders t

/-- Modelled from the spec: `JSON.stringify(orders)`, the text written to
the persistence collaborator under the `'orders'` key. -/
def serializeOrders (orders : List Order) : String :=
  ⟨'[' :: encodeOrders orders ++ [']']⟩

/-- Consume an expected literal text from the front of the input, failing on
any mismatch. -/
def dropLit : List Char → List Char → Option (List Char)
  | [], l => some l
  | _ :: _, [] => none
  | c :: lt, x :: xt => if x = c then dropLit lt xt else none

/-- Modelled from the spec: `JSON.parse`'s reading of a string body after
its opening quote, undoing the escaping; the flag records whether the
previous character was an unconsumed backslash. -/
def parseStringAux : Bool → List Char → Option (List Char × List Char)
  | _, [] => none
  | true, c :: rest => (parseStringAux false rest).map fun p => (c :: p.1, p.2)
  | false, c :: rest =>
    if c = '"' then some ([], rest)
    else if c = '\\' then parseStringAux true rest
    else (parseStringAux false rest).map fun p => (c :: p.1, p.2)

/-- Modelled from the spec: `JSON.parse`'s reading of a string body after
its opening quote, undoing the escaping; yields the body and the input
after the closing quote. -/
def parseStringChars (l : List Char) : Option (List Char × List Char) :=
  parseStringAux false l

/-- Greedily read decimal digits, extending the accumulator. -/
def parseNatAux : List Char → Nat → Nat × List Char
  | [], acc => (acc, [])
  | c :: t, acc =>
    if c.isDigit then parseNatAux t (acc * 10 + (c.toNat - 48)) else (acc, c :: t)

/-- Modelled from the spec: `JSON.parse`'s reading of a natural number,
requiring at least one leading digit. -/
def parseNatChars : List Char → Option (Nat × List Char)
  | [] => none
  | c :: t => if c.isDigit then some (parseNatAux (c :: t) 0) else none

/-- Modelled from the spec: `JSON.parse`'s reading of an integer with an
optional leading minus sign. -/
def parseIntChars (l : List Char) : Option (Int × List Char) :=
  match l with
  | [] => none
  | c :: t =>
    if c = '-' then (parseNatChars t).map fun p => (-(p.1 : Int), p.2)
    else (parseNatChars (c :: t)).map fun p => ((p.1 : Int), p.2)

/-- Reading of a status value from a parsed string body: only the two legal
status texts are accepted. -/
def parseStatusChars (l : List Char) : Option (Status × List Char) :=
  (parseStringChars l).bind fun p =>
    if p.1 = "pending".data then some (Status.pending, p.2)
    else if p.1 = "completed".data then some (Status.completed, p.2)
    else none

/-- Modelled from the spec: `JSON.parse`'s reading of one order object of
the persisted snapshot. -/
def parseOrder (l : List Char) : Option (Order × List Char) :=
  (dropLit litIdKey l).bind fun l1 =>
  (parseNatChars l1).bind fun p1 =>
  (dropLit litCustomerKey p1.2).bind fun l2 =>
  (parseStringChars l2).bind fun p2 =>
  (dropLit litAmountKey p2.2).bind fun l3 =>
  (parseIntChars l3).bind fun p3 =>
  (dropLit litStatusKey p3.2).bind fun l4 =>
  (parseStatusChars l4).bind fun p4 =>
  (dropLit litDateKey p4.2).bind fun l5 =>
  (parseStringChars l5).bind fun p5 =>
  (dropLit litNotesKey p5.2).bind fun l6 =>
  (parseStringChars l6).bind fun p6 =>
  (dropLit ['\x7d'] p6.2).map fun l7 =>
  ({ id := p1.1, customer := ⟨p2.1⟩, amount := p3.1, status := p4.1,
     date := ⟨p5.1⟩, notes := ⟨p6.1⟩ }, l7)

/-- Modelled from the spec: `JSON.parse`'s reading of the non-empty body of
the persisted array, one object at a time; `fuel` bounds the number of
elements and the input length always suffices. -/
def parseOrdersAux : Nat → List Char → Option (List Order × List Char)
  | 0, _ => none
  | fuel + 1, l =>
    (parseOrder l).bind fun p =>
      match p.2 with
      | [] => none
      | c :: r2 =>
        if c = ']' then some ([p.1], r2)
        else if c = ',' then
          (parseOrdersAux fuel r2).map fun q => (p.1 :: q.1, q.2)
        else none

/-- Modelled from the spec: `JSON.parse` on the characters of a persisted
snapshot, requiring the whole text to be one well-formed array. -/
def parseOrdersChars (fuel : Nat) (l : List Char) : Option (List Order) :=
  match l with
  | [] => none
  | c :: t =>
    if c = '[' then
      match t with
      | [] => none
      | d :: t2 =>
        if d = ']' then (if t2.isEmpty then some [] else none)
        else
          match parseOrdersAux fuel (d :: t2) with
          | some q => if q.2.isEmpty then some q.1 else none
          | none => none
    else none

/-- Modelled from the spec: `JSON.parse` on a persisted snapshot, decoding
the whole text to an order list, `none` on malformed or corrupt data. -/
def parseOrders (s : String) : Option (List Order) :=
  parseOrdersChars s.data.length s.data

/-- The mount-time load effect of the component: adopt a stored snapshot when
present and parseable, otherwise fall back to `INITIAL_ORDERS`; the
`localStorage.getItem('orders')` answer is the explicit `stored` argument and
the current day `today` dates the fallback records. -/
def loadOrders (today : String) (stored : Option String) : List Order :=
  match stored with
  | some s =>
    match parseOrders s with
    | some os => os
    | none => INITIAL_ORDERS today
  | none => INITIAL_ORDERS today

set_option maxRecDepth 8192 in
example : parseOrders (serializeOrders sampleOrders) = some sampleOrders := by
  decide

example : parseOrders "" = none := by decide
example : parseOrders "garbage" = none := by decide
example : parseOrders "[]" = some [] := by decide

set_option maxRecDepth 8192 in
example :
    parseOrders (serializeOrders
        [{ id := 7, customer := "A \"q\" \\ B", amount := -3,
           status := .completed, date := "2024-02-29", notes := "x" }]) =
      some [{ id := 7, customer := "A \"q\" \\ B", amount := -3,
              status := .completed, date := "2024-02-29", notes := "x" }] := by
  decide

theorem dropLit_append (lit rest : List Char) :
    dropLit lit (lit ++ rest) = some rest := by
  induction lit with
  | nil => rfl
  | cons c t ih => simpa [dropLit] using ih

theorem parseStringChars_round (s rest : List Char) :
    parseStringChars (escapeChars s ++ '"' :: rest) = some (s, rest) := by
  show parseStringAux false (escapeChars s ++ '"' :: rest) = some (s, rest)
  induction s with
  | nil => simp [escapeChars, parseStringAux]
  | cons c t ih =>
    by_cases h : c = '"' ∨ c = '\\'
    · simp [escapeChars, escapeChar, h, parseStringAux, ih]
    · push_neg at h
      simp [escapeChars, escapeChar, h.1, h.2, parseStringAux, ih]

theorem digitChar_isDigit : ∀ d : Nat, d < 10 → (Nat.digitChar d).isDigit = true := by
  decide

theorem digitChar_val : ∀ d : Nat, d < 10 → (Nat.digitChar d).toNat - 48 = d := by
  decide

theorem natToCharsAux_eq_digits (fuel : Nat) :
    ∀ n : Nat, n ≤ fuel →
      natToCharsAux fuel n = ((Nat.digits 10 n).map Nat.digitChar).reverse := by
  induction fuel with
  | zero =>
    intro n hn
    have h0 : n = 0 := Nat.le_zero.mp hn
    subst h0
    simp [natToCharsAux]
  | succ fuel ih =>
    intro n hn
    by_cases h0 : n = 0
    · subst h0
      simp [natToCharsAux]
    · have hpos : 0 < n := Nat.pos_of_ne_zero h0
      have hdiv : n / 10 ≤ fuel := by
        have := Nat.div_lt_self hpos (by norm_num : 1 < 10)
        omega
      simp only [natToCharsAux, if_neg h0]
      rw [ih (n / 10) hdiv, Nat.digits_def' (by norm_num : 1 < 10) hpos]
      simp

theorem foldr_digitChar_ofDigits :
    ∀ L : List Nat, (∀ d ∈ L, d < 10) →
      (L.map Nat.digitChar).foldr (fun c a => a * 10 + (c.toNat - 48)) 0 =
        Nat.ofDigits 10 L := by
  intro L
  induction L with
  | nil =>
    intro _
    simp [Nat.ofDigits_nil]
  | cons d L ih =>
    intro h
    have hd : d < 10 := h d (List.mem_cons_self ..)
    have hL : ∀ x ∈ L, x < 10 := fun x hx => h x (List.mem_cons_of_mem _ hx)
    simp only [List.map_cons, List.foldr_cons, ih hL, digitChar_val d hd,
      Nat.ofDigits_cons]
    ring

theorem natToChars_foldl (n : Nat) :
    (natToChars n).foldl (fun a c => a * 10 + (c.toNat - 48)) 0 = n := by
  by_cases h0 : n = 0
  · subst h0
    decide
  · rw [natToChars, if_neg h0, natToCharsAux_eq_digits (n + 1) n (Nat.le_succ n),
      List.foldl_reverse]
    show ((Nat.digits 10 n).map Nat.digitChar).foldr
        (fun c a => a * 10 + (c.toNat - 48)) 0 = n
    rw [foldr_digitChar_ofDigits _
      (fun d hd => Nat.digits_lt_base (by norm_num) hd)]
    exact Nat.ofDigits_digits 10 n

theorem natToChars_all_digits (n : Nat) :
    ∀ c ∈ natToChars n, c.isDigit = true := by
  by_cases h0 : n = 0
  · subst h0
    decide
  · intro c hc
    rw [natToChars, if_neg h0,
      natToCharsAux_eq_digits (n + 1) n (Nat.le_succ n), List.mem_reverse] at hc
    rcases List.mem_map.mp hc with ⟨d, hd, rfl⟩
    exact digitChar_isDigit d (Nat.digits_lt_base (by norm_num) hd)

theorem natToChars_ne_nil (n : Nat) : natToChars n ≠ [] := by
  by_cases h0 : n = 0
  · subst h0
    decide
  · rw [natToChars, if_neg h0,
      natToCharsAux_eq_digits (n + 1) n (Nat.le_succ n)]
    simp [Nat.digits_ne_nil_iff_ne_zero, h0]

/-- The character after a serialized number must not extend it: the head of
the remaining input is not a decimal digit. -/
def headNotDigit : List Char → Prop
  | [] => True
  | c :: _ => c.isDigit = false

theorem parseNatAux_append (ds : List Char) :
    ∀ (rest : List Char) (acc : Nat), (∀ c ∈ ds, c.isDigit = true) →
      headNotDigit rest →
      parseNatAux (ds ++ rest) acc =
        (ds.foldl (fun a c => a * 10 + (c.toNat - 48)) acc, rest) := by
  induction ds with
  | nil =>
    intro rest acc _ hrest
    cases rest with
    | nil => rfl
    | cons c t =>
      have hc : c.isDigit = false := hrest
      simp [parseNatAux, hc]
  | cons d ds ih =>
    intro rest acc hds hrest
    have hd : d.isDigit = true := hds d (List.mem_cons_self ..)
    simp only [List.cons_append, parseNatAux, hd, if_true, List.foldl_cons]
    exact ih rest _ (fun c hc => hds c (List.mem_cons_of_mem _ hc)) hrest

theorem parseNatChars_round (n : Nat) (rest : List Char)
    (hrest : headNotDigit rest) :
    parseNatChars (natToChars n ++ rest) = some (n, rest) := by
  have hall := natToChars_all_digits n
  have hfold := natToChars_foldl n
  rcases hne : natToChars n with _ | ⟨c, t⟩
  · exact absurd hne (natToChars_ne_nil n)
  · rw [hne] at hall hfold
    have hc : c.isDigit = true := hall c (List.mem_cons_self ..)
    rw [List.cons_append]
    show parseNatChars (c :: (t ++ rest)) = some (n, rest)
    simp only [parseNatChars, hc, if_true]
    rw [show c :: (t ++ rest) = (c :: t) ++ rest from rfl,
      parseNatAux_append (c :: t) rest 0 hall hrest, hfold]

theorem parseIntChars_round (i : Int) (rest : List Char)
    (hrest : headNotDigit rest) :
    parseIntChars (intToChars i ++ rest) = some (i, rest) := by
  by_cases hneg : i < 0
  · rw [intToChars, if_pos hneg, List.cons_append]
    show parseIntChars ('-' :: (natToChars i.natAbs ++ rest)) = some (i, rest)
    have hstep : parseIntChars ('-' :: (natToChars i.natAbs ++ rest)) =
        (parseNatChars (natToChars i.natAbs ++ rest)).map
          fun p => (-(p.1 : Int), p.2) := by
      simp [parseIntChars]
    rw [hstep, parseNatChars_round i.natAbs rest hrest, Option.map_some']
    have hval : -((i.natAbs : Nat) : Int) = i := by omega
    rw [hval]
  · have hall := natToChars_all_digits i.natAbs
    rcases hne : natToChars i.natAbs with _ | ⟨c, t⟩
    · exact absurd hne (natToChars_ne_nil i.natAbs)
    · rw [hne] at hall
      have hc : c.isDigit = true := hall c (List.mem_cons_self ..)
      have hcm : c ≠ '-' := by
        intro h
        rw [h] at hc
        exact absurd hc (by decide)
      rw [intToChars, if_neg hneg, hne, List.cons_append]
      show parseIntChars (c :: (t ++ rest)) = some (i, rest)
      simp only [parseIntChars, if_neg hcm]
      rw [show c :: (t ++ rest) = (c :: t) ++ rest from rfl, ← hne,
        parseNatChars_round i.natAbs rest hrest, Option.map_some']
      have hval : ((i.natAbs : Nat) : Int) = i := by omega
      rw [hval]

theorem parseStatusChars_round (st : Status) (rest : List Char) :
    parseStatusChars (escapeChars st.text.data ++ '"' :: rest) =
      some (st, rest) := by
  cases st
  · show parseStatusChars (escapeChars "pending".data ++ '"' :: rest) =
      some (.pending, rest)
    simp [parseStatusChars, parseStringChars_round]
  · show parseStatusChars (escapeChars "completed".data ++ '"' :: rest) =
      some (.completed, rest)
    simp [parseStatusChars, parseStringChars_round]

theorem headNotDigit_litCustomerKey (l : List Char) :
    headNotDigit (litCustomerKey ++ l) := rfl

theorem headNotDigit_litStatusKey (l : List Char) :
    headNotDigit (litStatusKey ++ l) := rfl

theorem dropLit_brace (l : List Char) :
    dropLit ['\x7d'] ('\x7d' :: l) = some l := rfl

theorem parseOrder_round (o : Order) (rest : List Char) :
    parseOrder (encodeOrder o ++ rest) = some (o, rest) := by
  simp only [parseOrder, encodeOrder, List.append_assoc, List.singleton_append,
    List.cons_append, List.nil_append, dropLit_append, dropLit_brace,
    parseNatChars_round,
    parseStringChars_round, parseIntChars_round, parseStatusChars_round,
    headNotDigit_litCustomerKey, headNotDigit_litStatusKey, Option.some_bind,
    Option.map_some']

theorem encodeOrder_head (o : Order) : ∃ u, encodeOrder o = '\x7b' :: u :=
  ⟨_, rfl⟩

theorem encodeOrders_cons_head (o : Order) (t : List Order) :
    ∃ u, encodeOrders (o :: t) = '\x7b' :: u := by
  obtain ⟨v, hv⟩ := encodeOrder_head o
  cases t with
  | nil => exact ⟨v, hv⟩
  | cons x xs =>
    refine ⟨v ++ ',' :: encodeOrders (x :: xs), ?_⟩
    show encodeOrder o ++ ',' :: encodeOrders (x :: xs) = _
    rw [hv, List.cons_append]

theorem encodeOrder_length_pos (o : Order) : 1 ≤ (encodeOrder o).length := by
  obtain ⟨u, hu⟩ := encodeOrder_head o
  rw [hu]
  simp

theorem length_le_encodeOrders (os : List Order) :
    os.length ≤ (encodeOrders os).length := by
  induction os with
  | nil => simp [encodeOrders]
  | cons o t ih =>
    cases t with
    | nil => simpa [encodeOrders] using encodeOrder_length_pos o
    | cons x xs =>
      have h1 := encodeOrder_length_pos o
      show (o :: x :: xs).length ≤
        (encodeOrder o ++ ',' :: encodeOrders (x :: xs)).length
      simp only [List.length_cons, List.length_append] at *
      omega

theorem parseOrdersAux_round (os : List Order) :
    ∀ (fuel : Nat) (rest : List Char), os ≠ [] → os.length ≤ fuel →
      parseOrdersAux fuel (encodeOrders os ++ ']' :: rest) = some (os, rest) := by
  induction os with
  | nil =>
    intro fuel rest h _
    exact absurd rfl h
  | cons o t ih =>
    intro fuel rest _ hlen
    cases fuel with
    | zero => simp at hlen
    | succ f =>
      cases t with
      | nil =>
        show parseOrdersAux (f + 1) (encodeOrder o ++ ']' :: rest) =
          some ([o], rest)
        simp [parseOrdersAux, parseOrder_round]
      | cons x xs =>
        have hlen2 : (x :: xs).length ≤ f := by
          simp only [List.length_cons] at hlen ⊢
          omega
        show parseOrdersAux (f + 1)
            ((encodeOrder o ++ ',' :: encodeOrders (x :: xs)) ++ ']' :: rest) =
          some (o :: x :: xs, rest)
        rw [List.append_assoc, List.cons_append]
        simp only [parseOrdersAux, parseOrder_round, Option.some_bind]
        rw [ih f rest (by simp) hlen2]
        simp

theorem parseOrdersChars_round (os : List Order) (fuel : Nat)
    (hfuel : os.length ≤ fuel) :
    parseOrdersChars fuel (('[' :: encodeOrders os) ++ [']']) = some os := by
  cases os with
  | nil => rfl
  | cons o t =>
    obtain ⟨u, hu⟩ := encodeOrders_cons_head o t
    rw [hu, List.cons_append, List.cons_append]
    show (if ('\x7b' : Char) = ']' then
            (if (u ++ [']']).isEmpty then some [] else none)
          else
            match parseOrdersAux fuel ('\x7b' :: (u ++ [']'])) with
            | some q => if q.2.isEmpty then some q.1 else none
            | none => none) = some (o :: t)
    rw [if_neg (by decide),
      show ('\x7b' : Char) :: (u ++ [']']) = ('\x7b' :: u) ++ ']' :: []
        from (List.cons_append ..).symm,
      ← hu, parseOrdersAux_round (o :: t) fuel [] (by simp) hfuel]
    rfl

theorem parse_serialize (os : List Order) :
    parseOrders (serializeOrders os) = some os := by
  have hlen : os.length ≤ (('[' :: encodeOrders os) ++ [']']).length := by
    have := length_le_encodeOrders os
    simp only [List.length_cons, List.length_append]
    omega
  exact parseOrdersChars_round os (('[' :: encodeOrders os) ++ [']']).length hlen

/-- C6: serializing any order list through the persistence collaborator and
deserializing the result restores a list identical in content and element
order; in particular, after any completed mutation-and-save cycle the
persisted snapshot decodes to exactly the in-memory list. -/
theorem serialize_roundtrip (os : List Order) :
    parseOrders (serializeOrders os) = some os ∧
    (∀ (orders : List Order) (op : StoreOp),
      parseOrders (serializeOrders (applyOp orders op)) =
        some (applyOp orders op)) :=
  ⟨parse_serialize os, fun orders op => parse_serialize (applyOp orders op)⟩

/-- C8: initialization adopts the stored snapshot as the current order list
when one is present and parseable, and falls back to the fixed two-record
default dataset when the snapshot is absent or unparseable; the parse
failure is swallowed, only the fallback being observable. -/
theorem load_spec (today : String) :
    loadOrders today none = INITIAL_ORDERS today ∧
    (∀ s : String, parseOrders s = none →
      loadOrders today (some s) = INITIAL_ORDERS today) ∧
    (∀ (s : String) (os : List Order), parseOrders s = some os →
      loadOrders today (some s) = os) := by
  refine ⟨rfl, fun s hs => ?_, fun s os hs => ?_⟩
  · simp [loadOrders, hs]
  · simp [loadOrders, hs]

theorem load_spec_witness :
    parseOrders "garbage" = none ∧
    loadOrders "2024-01-15" (some "garbage") = INITIAL_ORDERS "2024-01-15" ∧
    parseOrders (serializeOrders sampleOrders) = some sampleOrders ∧
    loadOrders "2024-01-15" (some (serializeOrders sampleOrders)) =
      sampleOrders ∧
    loadOrders "2024-01-15" none = INITIAL_ORDERS "2024-01-15" :=
  ⟨by decide,
   (load_spec "2024-01-15").2.1 "garbage" (by decide),
   parse_serialize sampleOrders,
   (load_spec "2024-01-15").2.2 (serializeOrders sampleOrders) sampleOrders
     (parse_serialize sampleOrders),
   (load_spec "2024-01-15").1⟩
